import Mathlib

/-!
Shallow embedding of `topics/evidence-calculation/optemcee.py` (function
`run_mcmc`) and proofs of the specification claims about it.

The Python function drives an external MCMC sampler for `nsteps` steps:

```
def run_mcmc(sampler, p0, nsteps, thin=1):
    ntemps = np.size(sampler.betas)
    chain = np.zeros((nsteps, ntemps, sampler.nwalkers, sampler.ndim))
    pbar = tqdm(total=nsteps)
    index = 0
    logl = np.zeros((nsteps, ntemps, sampler.nwalkers))
    logpi = np.zeros((nsteps, ntemps, sampler.nwalkers))
    for result in sampler.sample(p0, thin_by=thin):
        chain[index, :, :, :] = result.x
        logl[index, :, :] = result.logl
        logpi[index, :, :] = result.logP
        index += 1
        pbar.update(1)
        if index >= nsteps:
            break
    pbar.close()
    return chain, logl, logpi
```

Modelling decisions:
  * numpy arrays become nested lists of `Int` (no arithmetic is performed on
    the stored values, only storage and retrieval, so the element type is
    irrelevant; `Int` keeps everything decidable).
  * `np.zeros` becomes nested `List.replicate` with element `0`.
  * the lazy generator `sampler.sample(p0, thin_by=thin)` becomes a finite
    list of items, each item either a produced step result (`Except.ok`) or a
    fault raised while producing it (`Except.error`); iterating past the end
    of the list models exhaustion of the generator.
  * the slice assignment `chain[index, :, :, :] = result.x` becomes a bounds
    checked slot write: numpy raises `IndexError` when `index` is out of
    bounds on the first axis, and otherwise overwrites the slot.
  * exceptions propagate through `Except`; `pbar.close()` runs only when the
    `for` loop exits normally (there is no try/finally in the source), so the
    trace records `pbarClosed` as true exactly on the non-fault paths.
  * the trace also records how many items were pulled from the generator.
-/

/-- 1-D array of numbers. -/
abbrev A1 := List Int
/-- 2-D array: axes (walker-like, dim-like). -/
abbrev A2 := List A1
/-- 3-D array: e.g. `(ntemps, nwalkers, ndim)` or one chain step slot. -/
abbrev A3 := List A2
/-- 4-D array: the full chain `(nsteps, ntemps, nwalkers, ndim)`. -/
abbrev A4 := List A3

/-- `a` is a rectangular 2-D array of shape `(m, n)`. -/
def shape2 (a : A2) (m n : Nat) : Bool :=
  a.length == m && a.all (fun r => r.length == n)

/-- `a` is a rectangular 3-D array of shape `(t, w, d)`. -/
def shape3 (a : A3) (t w d : Nat) : Bool :=
  a.length == t && a.all (fun r => shape2 r w d)

/-- `a` is a rectangular 4-D array of shape `(s, t, w, d)`. -/
def shape4 (a : A4) (s t w d : Nat) : Bool :=
  a.length == s && a.all (fun r => shape3 r t w d)

/-- `np.zeros((m, n))`. -/
def zeros2 (m n : Nat) : A2 := List.replicate m (List.replicate n 0)

/-- `np.zeros((t, w, d))`. -/
def zeros3 (t w d : Nat) : A3 := List.replicate t (zeros2 w d)

/-- `np.zeros((s, t, w, d))`. -/
def zeros4 (s t w d : Nat) : A4 := List.replicate s (zeros3 t w d)

/-- Faults that can surface from the loop body or from the sampler:
`indexError` is numpy's out-of-bounds fault on a first-axis slot write;
`external n` is an arbitrary fault (tagged by `n`) raised by the sampler's
generator while producing the next step result. -/
inductive Fault where
  | indexError : Fault
  | external : Nat → Fault
deriving DecidableEq, Repr

/-- One step result yielded by `sampler.sample`: the parameter snapshot `x`
of shape `(ntemps, nwalkers, ndim)` and the score arrays `logl`, `logP` of
shape `(ntemps, nwalkers)`. -/
structure StepResult where
  x : A3
  logl : A2
  logP : A2
deriving DecidableEq, Repr

/-- The external sampler collaborator, as `run_mcmc` sees it: the attributes
`betas`, `nwalkers`, `ndim` it reads, the declared `ntemps` attribute it does
NOT read, and the generator-producing method `sample(p0, thin_by)`, modelled
as the finite list of items the generator will yield. -/
structure Sampler where
  betas : List Int
  nwalkers : Nat
  ndim : Nat
  ntempsAttr : Nat
  sample : A3 → Nat → List (Except Fault StepResult)

/-- `a[i] = v` on the first axis of a numpy array of first-axis length
`a.length`: out of bounds raises `IndexError`, otherwise the slot is
overwritten. -/
def setSlot {α : Type} (a : List α) (i : Nat) (v : α) : Except Fault (List α) :=
  if i < a.length then .ok (a.set i v) else .error .indexError

/-- The body of the `for` loop at a given `index`: the three slot writes
`chain[index] = result.x`, `logl[index] = result.logl`,
`logpi[index] = result.logP`, in source order, any of which can fault. -/
def loopBody (chain : A4) (logl logpi : A3) (index : Nat) (r : StepResult) :
    Except Fault (A4 × A3 × A3) := do
  let chain ← setSlot chain index r.x
  let logl ← setSlot logl index r.logl
  let logpi ← setSlot logpi index r.logP
  pure (chain, logl, logpi)

/-- The `for result in sampler.sample(...)` loop. Returns the outcome (the
three arrays on normal exit, or the propagated fault) paired with the number
of items pulled from the generator. The `break` fires after the write and the
increment, when `index + 1 ≥ nsteps`; a fault from the generator or from a
slot write propagates immediately, pulling nothing further. -/
def runLoop : List (Except Fault StepResult) → Nat → Nat → A4 → A3 → A3 →
    Except Fault (A4 × A3 × A3) × Nat
  | [], _, _, chain, logl, logpi => (.ok (chain, logl, logpi), 0)
  | .error f :: _, _, _, _, _, _ => (.error f, 1)
  | .ok r :: rest, index, nsteps, chain, logl, logpi =>
    match loopBody chain logl logpi index r with
    | .error f => (.error f, 1)
    | .ok (chain', logl', logpi') =>
      if index + 1 ≥ nsteps then (.ok (chain', logl', logpi'), 1)
      else
        let p := runLoop rest (index + 1) nsteps chain' logl' logpi'
        (p.1, p.2 + 1)

/-- The observable trace of one call of `run_mcmc`: its outcome, the number
of generator items pulled, and whether `pbar.close()` was reached. -/
structure RunTrace where
  result : Except Fault (A4 × A3 × A3)
  pulls : Nat
  pbarClosed : Bool
deriving Repr

/-- `run_mcmc(sampler, p0, nsteps, thin=1)`: allocate the three
zero-initialized arrays of shapes `(nsteps, ntemps, nwalkers, ndim)`,
`(nsteps, ntemps, nwalkers)`, `(nsteps, ntemps, nwalkers)` with
`ntemps = np.size(sampler.betas)`, open the progress bar, run the collection
loop over `sampler.sample(p0, thin_by=thin)` from `index = 0`, and close the
progress bar — which in the source happens only on normal loop exit, there
being no try/finally, so `pbarClosed` is true exactly when no fault
propagated. -/
def run_mcmc (sampler : Sampler) (p0 : A3) (nsteps : Nat) (thin : Nat := 1) :
    RunTrace :=
  let ntemps := sampler.betas.length
  let chain := zeros4 nsteps ntemps sampler.nwalkers sampler.ndim
  let logl := zeros3 nsteps ntemps sampler.nwalkers
  let logpi := zeros3 nsteps ntemps sampler.nwalkers
  let p := runLoop (sampler.sample p0 thin) 0 nsteps chain logl logpi
  { result := p.1, pulls := p.2, pbarClosed := p.1.isOk }

/-- Every produced (non-fault) item of the sequence is a well-shaped step
result for ladder size `t`, walker count `w`, dimensionality `d`. -/
def wellShapedSeq (items : List (Except Fault StepResult)) (t w d : Nat) : Bool :=
  items.all fun it =>
    match it with
    | .ok r => shape3 r.x t w d && shape2 r.logl t w && shape2 r.logP t w
    | .error _ => true

/-- The sequence contains no fault items. -/
def allOk (items : List (Except Fault StepResult)) : Bool :=
  items.all fun it => match it with | .ok _ => true | .error _ => false

/-- The step results of a fault-free prefix of the sequence. -/
def oks (items : List (Except Fault StepResult)) : List StepResult :=
  items.filterMap fun it => match it with | .ok r => some r | .error _ => none

/-- Write the values `vs` into consecutive slots of `a` starting at `i`. -/
def writeSeq {α : Type} : List α → Nat → List α → List α
  | a, _, [] => a
  | a, i, v :: vs => writeSeq (a.set i v) (i + 1) vs

/-! ### Concrete samplers and inputs used by witnesses and counterexamples -/

/-- A deterministic step result with distinctive values. -/
def rA : StepResult := { x := [[[1]]], logl := [[2]], logP := [[3]] }

/-- A second, different deterministic step result. -/
def rB : StepResult := { x := [[[4]]], logl := [[5]], logP := [[6]] }

/-- A sampler (one temperature, one walker, one dimension) whose sequence
yields exactly one step result. -/
def sOne : Sampler :=
  { betas := [7], nwalkers := 1, ndim := 1, ntempsAttr := 1,
    sample := fun _ _ => [.ok rA] }

/-- A sampler whose sequence yields two distinct step results in order. -/
def sTwo : Sampler :=
  { betas := [7], nwalkers := 1, ndim := 1, ntempsAttr := 1,
    sample := fun _ _ => [.ok rA, .ok rB] }

/-- A sampler whose sequence is immediately exhausted. -/
def sEmpty : Sampler :=
  { betas := [7], nwalkers := 1, ndim := 1, ntempsAttr := 1,
    sample := fun _ _ => [] }

/-- A sampler whose sequence raises a fault on its first pull. -/
def sFault : Sampler :=
  { betas := [7], nwalkers := 1, ndim := 1, ntempsAttr := 1,
    sample := fun _ _ => [.error (.external 3)] }

/-- A sampler that behaves like `sOne` only when called with thinning
interval 3, and faults for every other thinning argument. -/
def sRecThin : Sampler :=
  { betas := [7], nwalkers := 1, ndim := 1, ntempsAttr := 1,
    sample := fun _ t => if t = 3 then [.ok rA] else [.error (.external 99)] }

/-- A concrete initial position. -/
def p0c : A3 := [[[0]]]

/-! ### Basic lemmas about `writeSeq`, `setSlot`, shapes and zeros -/

lemma writeSeq_nil {α : Type} (a : List α) (i : Nat) : writeSeq a i [] = a := rfl

lemma writeSeq_cons {α : Type} (a : List α) (i : Nat) (v : α) (vs : List α) :
    writeSeq a i (v :: vs) = writeSeq (a.set i v) (i + 1) vs := rfl

lemma length_writeSeq {α : Type} (vs : List α) :
    ∀ (a : List α) (i : Nat), (writeSeq a i vs).length = a.length := by
  induction vs with
  | nil => intro a i; rfl
  | cons v vs ih =>
    intro a i
    rw [writeSeq_cons, ih, List.length_set]

lemma writeSeq_getElem?_lt {α : Type} (vs : List α) :
    ∀ (a : List α) (i k : Nat), k < i → (writeSeq a i vs)[k]? = a[k]? := by
  induction vs with
  | nil => intro a i k _; rfl
  | cons v vs ih =>
    intro a i k hk
    rw [writeSeq_cons, ih _ _ _ (Nat.lt_succ_of_lt hk),
      List.getElem?_set_ne (by omega)]

lemma writeSeq_getElem?_mid {α : Type} (vs : List α) :
    ∀ (a : List α) (i j : Nat), j < vs.length → i + j < a.length →
      (writeSeq a i vs)[i + j]? = vs[j]? := by
  induction vs with
  | nil => intro a i j hj _; exact absurd hj (Nat.not_lt_zero j)
  | cons v vs ih =>
    intro a i j hj ha
    rw [writeSeq_cons]
    cases j with
    | zero =>
      simp only [Nat.add_zero]
      rw [writeSeq_getElem?_lt _ _ _ _ (Nat.lt_succ_self i),
        List.getElem?_set_eq_of_lt v (by omega)]
      simp
    | succ j =>
      have heq : i + (j + 1) = (i + 1) + j := by omega
      rw [heq, ih _ _ _ (by simpa using hj) (by rw [List.length_set]; omega)]
      simp

lemma writeSeq_getElem?_ge {α : Type} (vs : List α) :
    ∀ (a : List α) (i k : Nat), i + vs.length ≤ k →
      (writeSeq a i vs)[k]? = a[k]? := by
  induction vs with
  | nil => intro a i k _; rfl
  | cons v vs ih =>
    intro a i k hk
    rw [writeSeq_cons, ih _ _ _ (by simp at hk; omega),
      List.getElem?_set_ne (by simp at hk; omega)]

lemma shape2_set {a : A2} {m n i : Nat} {v : A1}
    (ha : shape2 a m n = true) (hv : v.length = n) :
    shape2 (a.set i v) m n = true := by
  simp only [shape2, Bool.and_eq_true, List.all_eq_true, beq_iff_eq] at ha ⊢
  refine ⟨by rw [List.length_set]; exact ha.1, fun r hr => ?_⟩
  rcases List.mem_or_eq_of_mem_set hr with h | h
  · exact ha.2 r h
  · subst h; exact hv

lemma shape3_set {a : A3} {m n k i : Nat} {v : A2}
    (ha : shape3 a m n k = true) (hv : shape2 v n k = true) :
    shape3 (a.set i v) m n k = true := by
  simp only [shape3, Bool.and_eq_true, List.all_eq_true, beq_iff_eq] at ha ⊢
  refine ⟨by rw [List.length_set]; exact ha.1, fun r hr => ?_⟩
  rcases List.mem_or_eq_of_mem_set hr with h | h
  · exact ha.2 r h
  · subst h; exact hv

lemma shape4_set {a : A4} {s t w d i : Nat} {v : A3}
    (ha : shape4 a s t w d = true) (hv : shape3 v t w d = true) :
    shape4 (a.set i v) s t w d = true := by
  simp only [shape4, Bool.and_eq_true, List.all_eq_true, beq_iff_eq] at ha ⊢
  refine ⟨by rw [List.length_set]; exact ha.1, fun r hr => ?_⟩
  rcases List.mem_or_eq_of_mem_set hr with h | h
  · exact ha.2 r h
  · subst h; exact hv

lemma shape2_zeros2 (m n : Nat) : shape2 (zeros2 m n) m n = true := by
  simp only [shape2, zeros2, Bool.and_eq_true, beq_iff_eq, List.all_eq_true]
  exact ⟨by simp, fun r hr => by rw [List.eq_of_mem_replicate hr]; simp⟩

lemma shape3_zeros3 (t w d : Nat) : shape3 (zeros3 t w d) t w d = true := by
  simp only [shape3, zeros3, Bool.and_eq_true, beq_iff_eq, List.all_eq_true]
  exact ⟨by simp, fun r hr => by
    rw [List.eq_of_mem_replicate hr]; exact shape2_zeros2 w d⟩

lemma shape4_zeros4 (s t w d : Nat) : shape4 (zeros4 s t w d) s t w d = true := by
  simp only [shape4, zeros4, Bool.and_eq_true, beq_iff_eq, List.all_eq_true]
  exact ⟨by simp, fun r hr => by
    rw [List.eq_of_mem_replicate hr]; exact shape3_zeros3 t w d⟩

/-! ### Unfolding lemmas for the sequence helpers and the loop body -/

lemma allOk_cons_ok (r : StepResult) (rest : List (Except Fault StepResult)) :
    allOk (.ok r :: rest) = allOk rest := by
  simp [allOk]

lemma allOk_cons_error (f : Fault) (rest : List (Except Fault StepResult)) :
    allOk (.error f :: rest) = false := by
  simp [allOk]

lemma oks_nil : oks [] = [] := rfl

lemma oks_cons_ok (r : StepResult) (rest : List (Except Fault StepResult)) :
    oks (.ok r :: rest) = r :: oks rest := by
  simp [oks]

lemma oks_cons_error (f : Fault) (rest : List (Except Fault StepResult)) :
    oks (.error f :: rest) = oks rest := by
  simp [oks]

lemma length_oks_of_allOk (items : List (Except Fault StepResult))
    (h : allOk items = true) : (oks items).length = items.length := by
  induction items with
  | nil => rfl
  | cons it rest ih =>
    match it with
    | .error f => rw [allOk_cons_error] at h; exact absurd h (by simp)
    | .ok r =>
      rw [allOk_cons_ok] at h
      rw [oks_cons_ok, List.length_cons, List.length_cons, ih h]

lemma loopBody_ok {c : A4} {l p : A3} {i : Nat} (r : StepResult)
    (hc : i < c.length) (hl : i < l.length) (hp : i < p.length) :
    loopBody c l p i r = .ok (c.set i r.x, l.set i r.logl, p.set i r.logP) := by
  simp only [loopBody, setSlot, if_pos hc, if_pos hl, if_pos hp]
  rfl

lemma loopBody_indexError {c : A4} (l p : A3) {i : Nat} (r : StepResult)
    (hc : ¬ i < c.length) :
    loopBody c l p i r = .error .indexError := by
  simp only [loopBody, setSlot, if_neg hc]
  rfl

/-! ### Characterization of the collection loop -/

/-- On a fault-free sequence the loop succeeds and writes the first
`nsteps - i` produced results into consecutive slots from `i`, pulling
`min items.length (nsteps - i)` items. -/
lemma runLoop_all_ok (nsteps : Nat) (items : List (Except Fault StepResult)) :
    allOk items = true →
    ∀ (i : Nat) (c : A4) (l p : A3), i < nsteps →
      c.length = nsteps → l.length = nsteps → p.length = nsteps →
      runLoop items i nsteps c l p =
        (.ok (writeSeq c i (((oks items).take (nsteps - i)).map StepResult.x),
              writeSeq l i (((oks items).take (nsteps - i)).map StepResult.logl),
              writeSeq p i (((oks items).take (nsteps - i)).map StepResult.logP)),
         min items.length (nsteps - i)) := by
  induction items with
  | nil =>
    intro _ i c l p hi hc hl hp
    simp [runLoop, oks_nil, writeSeq]
  | cons it rest ih =>
    intro h i c l p hi hc hl hp
    match it with
    | .error f => rw [allOk_cons_error] at h; exact absurd h (by simp)
    | .ok r =>
      rw [allOk_cons_ok] at h
      have hwrite := loopBody_ok (c := c) (l := l) (p := p) (i := i) r
        (by omega) (by omega) (by omega)
      by_cases hbr : i + 1 ≥ nsteps
      · have hns : nsteps - i = 1 := by omega
        simp only [runLoop, hwrite, if_pos hbr, hns, oks_cons_ok,
          List.take_succ_cons, List.take_zero, List.map_cons, List.map_nil,
          writeSeq_cons, writeSeq_nil, Prod.mk.injEq, List.length_cons]
        exact ⟨trivial, by omega⟩
      · obtain ⟨m, hm⟩ : ∃ m, nsteps - i = m + 1 := ⟨nsteps - i - 1, by omega⟩
        have hm' : nsteps - (i + 1) = m := by omega
        simp only [runLoop, hwrite, if_neg hbr]
        rw [ih h (i + 1) _ _ _ (by omega) (by simp [hc]) (by simp [hl])
          (by simp [hp])]
        simp only [hm', hm, oks_cons_ok, List.take_succ_cons, List.map_cons,
          writeSeq_cons, List.length_cons, Prod.mk.injEq]
        exact ⟨trivial, by omega⟩

lemma wellShapedSeq_cons_ok {r : StepResult} {rest : List (Except Fault StepResult)}
    {t w d : Nat} :
    wellShapedSeq (.ok r :: rest) t w d = true ↔
      shape3 r.x t w d = true ∧ shape2 r.logl t w = true ∧
      shape2 r.logP t w = true ∧ wellShapedSeq rest t w d = true := by
  simp [wellShapedSeq]
  tauto

lemma wellShapedSeq_cons_error {f : Fault} {rest : List (Except Fault StepResult)}
    {t w d : Nat} :
    wellShapedSeq (.error f :: rest) t w d = wellShapedSeq rest t w d := by
  simp [wellShapedSeq]

lemma runLoop_nil_eq (i nsteps : Nat) (c : A4) (l p : A3) :
    runLoop [] i nsteps c l p = (.ok (c, l, p), 0) := rfl

lemma runLoop_cons_error_eq (f : Fault) (rest : List (Except Fault StepResult))
    (i nsteps : Nat) (c : A4) (l p : A3) :
    runLoop (.error f :: rest) i nsteps c l p = (.error f, 1) := rfl

lemma runLoop_cons_ok_eq (r : StepResult) (rest : List (Except Fault StepResult))
    (i nsteps : Nat) (c : A4) (l p : A3) :
    runLoop (.ok r :: rest) i nsteps c l p =
      match loopBody c l p i r with
      | .error f => (.error f, 1)
      | .ok (c', l', p') =>
        if i + 1 ≥ nsteps then (.ok (c', l', p'), 1)
        else ((runLoop rest (i + 1) nsteps c' l' p').1,
              (runLoop rest (i + 1) nsteps c' l' p').2 + 1) := rfl

/-- The loop never pulls more than `nsteps - i` items when entered at index
`i < nsteps` — the `break` is a hard bound. -/
lemma runLoop_pulls_le (nsteps : Nat) (items : List (Except Fault StepResult)) :
    ∀ (i : Nat) (c : A4) (l p : A3), i < nsteps →
      (runLoop items i nsteps c l p).2 ≤ nsteps - i := by
  induction items with
  | nil => intro i c l p hi; rw [runLoop_nil_eq]; omega
  | cons it rest ih =>
    intro i c l p hi
    match it with
    | .error f => rw [runLoop_cons_error_eq]; omega
    | .ok r =>
      cases hb : loopBody c l p i r with
      | error f =>
        simp only [runLoop_cons_ok_eq, hb]
        omega
      | ok triple =>
        obtain ⟨c', l', p'⟩ := triple
        by_cases hbr : i + 1 ≥ nsteps
        · simp only [runLoop_cons_ok_eq, hb, if_pos hbr]
          omega
        · simp only [runLoop_cons_ok_eq, hb, if_neg hbr]
          have hrec := ih (i + 1) c' l' p' (by omega)
          omega

/-- A fault raised by the generator while within the step budget propagates
unchanged, after pulling exactly the fault-free prefix plus the fault. -/
lemma runLoop_fault (nsteps : Nat) (f : Fault)
    (rest : List (Except Fault StepResult)) :
    ∀ (pre : List (Except Fault StepResult)), allOk pre = true →
      ∀ (i : Nat) (c : A4) (l p : A3), i + pre.length < nsteps →
        c.length = nsteps → l.length = nsteps → p.length = nsteps →
        runLoop (pre ++ .error f :: rest) i nsteps c l p =
          (.error f, pre.length + 1) := by
  intro pre
  induction pre with
  | nil =>
    intro _ i c l p _ _ _ _
    rw [List.nil_append, runLoop_cons_error_eq]
    simp
  | cons it pre' ih =>
    intro h i c l p hi hc hl hp
    match it with
    | .error g => rw [allOk_cons_error] at h; exact absurd h (by simp)
    | .ok r =>
      rw [allOk_cons_ok] at h
      have hil : (Except.ok r :: pre').length = pre'.length + 1 :=
        List.length_cons _ _
      rw [hil] at hi
      have hwrite := loopBody_ok (c := c) (l := l) (p := p) (i := i) r
        (by omega) (by omega) (by omega)
      have hbr : ¬ i + 1 ≥ nsteps := by omega
      rw [List.cons_append, runLoop_cons_ok_eq, hwrite]
      simp only [if_neg hbr]
      rw [ih h (i + 1) _ _ _ (by omega) (by rw [List.length_set]; exact hc)
        (by rw [List.length_set]; exact hl) (by rw [List.length_set]; exact hp)]
      rw [hil]

/-- Whenever the loop returns normally, the three arrays keep the shapes they
were allocated with, provided every produced step result is well shaped. -/
lemma runLoop_shapes (nsteps t w d : Nat) (items : List (Except Fault StepResult)) :
    wellShapedSeq items t w d = true →
    ∀ (i : Nat) (c c' : A4) (l p l' p' : A3),
      shape4 c nsteps t w d = true → shape3 l nsteps t w = true →
      shape3 p nsteps t w = true →
      (runLoop items i nsteps c l p).1 = .ok (c', l', p') →
      shape4 c' nsteps t w d = true ∧ shape3 l' nsteps t w = true ∧
        shape3 p' nsteps t w = true := by
  induction items with
  | nil =>
    intro _ i c c' l p l' p' hc hl hp hres
    simp only [runLoop] at hres
    obtain ⟨rfl, rfl, rfl⟩ : c = c' ∧ l = l' ∧ p = p' := by
      injection hres with h1
      injection h1 with h2 h3
      injection h3 with h4 h5
      exact ⟨h2, h4, h5⟩
    exact ⟨hc, hl, hp⟩
  | cons it rest ih =>
    intro h i c c' l p l' p' hc hl hp hres
    match it with
    | .error f => simp [runLoop] at hres
    | .ok r =>
      rw [wellShapedSeq_cons_ok] at h
      obtain ⟨hx, hlogl, hlogP, hrest⟩ := h
      by_cases hic : i < c.length
      · have hil : i < l.length := by
          simp only [shape4, shape3, Bool.and_eq_true, beq_iff_eq] at hc hl
          omega
        have hip : i < p.length := by
          simp only [shape4, shape3, Bool.and_eq_true, beq_iff_eq] at hc hp
          omega
        have hwrite := loopBody_ok (c := c) (l := l) (p := p) (i := i) r
          hic hil hip
        have hc' : shape4 (c.set i r.x) nsteps t w d = true := shape4_set hc hx
        have hl' : shape3 (l.set i r.logl) nsteps t w = true :=
          shape3_set hl hlogl
        have hp' : shape3 (p.set i r.logP) nsteps t w = true :=
          shape3_set hp hlogP
        by_cases hbr : i + 1 ≥ nsteps
        · simp only [runLoop, hwrite, if_pos hbr] at hres
          obtain ⟨rfl, rfl, rfl⟩ : c.set i r.x = c' ∧ l.set i r.logl = l' ∧
              p.set i r.logP = p' := by
            injection hres with h1
            injection h1 with h2 h3
            injection h3 with h4 h5
            exact ⟨h2, h4, h5⟩
          exact ⟨hc', hl', hp'⟩
        · simp only [runLoop, hwrite, if_neg hbr] at hres
          exact ih hrest (i + 1) _ c' _ _ l' p' hc' hl' hp' hres
      · have hwrite := loopBody_indexError (c := c) l p (i := i) r hic
        simp [runLoop, hwrite] at hres

lemma length_zeros3 (t w d : Nat) : (zeros3 t w d).length = t := by
  simp [zeros3]

lemma length_zeros4 (s t w d : Nat) : (zeros4 s t w d).length = s := by
  simp [zeros4]

lemma getElem?_zeros3 {t : Nat} (w d i : Nat) (hi : i < t) :
    (zeros3 t w d)[i]? = some (zeros2 w d) := by
  simp [zeros3, List.getElem?_replicate, hi]

lemma getElem?_zeros4 {s : Nat} (t w d i : Nat) (hi : i < s) :
    (zeros4 s t w d)[i]? = some (zeros3 t w d) := by
  simp [zeros4, List.getElem?_replicate, hi]

/-- Full description of `run_mcmc` on a fault-free sequence and a positive
step budget: success, the first `min` items written in order from slot 0, and
the progress bar closed. -/
lemma run_mcmc_all_ok (s : Sampler) (p0 : A3) (nsteps thin : Nat)
    (h : allOk (s.sample p0 thin) = true) (hn : 0 < nsteps) :
    run_mcmc s p0 nsteps thin =
      { result := .ok
          (writeSeq (zeros4 nsteps s.betas.length s.nwalkers s.ndim) 0
            (((oks (s.sample p0 thin)).take nsteps).map StepResult.x),
           writeSeq (zeros3 nsteps s.betas.length s.nwalkers) 0
            (((oks (s.sample p0 thin)).take nsteps).map StepResult.logl),
           writeSeq (zeros3 nsteps s.betas.length s.nwalkers) 0
            (((oks (s.sample p0 thin)).take nsteps).map StepResult.logP)),
        pulls := min (s.sample p0 thin).length nsteps,
        pbarClosed := true } := by
  have hloop := runLoop_all_ok nsteps (s.sample p0 thin) h 0
    (zeros4 nsteps s.betas.length s.nwalkers s.ndim)
    (zeros3 nsteps s.betas.length s.nwalkers)
    (zeros3 nsteps s.betas.length s.nwalkers)
    hn (length_zeros4 _ _ _ _) (length_zeros3 _ _ _) (length_zeros3 _ _ _)
  simp only [run_mcmc, hloop, Nat.sub_zero, Except.isOk, Except.toBool]

lemma writeSeq_zero_getElem?_lt {α : Type} (a vs : List α) (j : Nat)
    (hj : j < vs.length) (ha : j < a.length) :
    (writeSeq a 0 vs)[j]? = vs[j]? := by
  have h := writeSeq_getElem?_mid vs a 0 j hj (by omega)
  simpa using h

lemma writeSeq_zero_getElem?_ge {α : Type} (a vs : List α) (j : Nat)
    (hj : vs.length ≤ j) : (writeSeq a 0 vs)[j]? = a[j]? := by
  have h := writeSeq_getElem?_ge vs a 0 j (by omega)
  exact h

lemma shape4_length {a : A4} {s t w d : Nat} (h : shape4 a s t w d = true) :
    a.length = s := by
  simp only [shape4, Bool.and_eq_true, beq_iff_eq] at h
  exact h.1

lemma shape4_mem {a : A4} {s t w d : Nat} (h : shape4 a s t w d = true)
    {r : A3} (hr : r ∈ a) : shape3 r t w d = true := by
  simp only [shape4, Bool.and_eq_true, beq_iff_eq, List.all_eq_true] at h
  exact h.2 r hr

lemma shape3_length {a : A3} {t w d : Nat} (h : shape3 a t w d = true) :
    a.length = t := by
  simp only [shape3, Bool.and_eq_true, beq_iff_eq] at h
  exact h.1

lemma shape2_length {a : A2} {m n : Nat} (h : shape2 a m n = true) :
    a.length = m := by
  simp only [shape2, Bool.and_eq_true, beq_iff_eq] at h
  exact h.1

/-! ### Claims -/

/-- C1: for every sampler and every valid input (`nsteps ≥ 0`, `thin ≥ 1`,
and the sampler producing well-shaped step results), the triple returned by
`run_mcmc` consists of a chain of shape `(nsteps, ntemps, nwalkers, ndim)`
and log-likelihood and log-prior arrays of shape `(nsteps, ntemps, nwalkers)`
where `ntemps` is the temperature-ladder size `np.size(sampler.betas)`. -/
theorem run_mcmc_output_shapes (s : Sampler) (p0 : A3) (nsteps thin : Nat)
    (hthin : 1 ≤ thin)
    (hseq : wellShapedSeq (s.sample p0 thin) s.betas.length s.nwalkers
      s.ndim = true)
    (c : A4) (l p : A3)
    (hres : (run_mcmc s p0 nsteps thin).result = .ok (c, l, p)) :
    shape4 c nsteps s.betas.length s.nwalkers s.ndim = true ∧
    shape3 l nsteps s.betas.length s.nwalkers = true ∧
    shape3 p nsteps s.betas.length s.nwalkers = true := by
  have hres' : (runLoop (s.sample p0 thin) 0 nsteps
      (zeros4 nsteps s.betas.length s.nwalkers s.ndim)
      (zeros3 nsteps s.betas.length s.nwalkers)
      (zeros3 nsteps s.betas.length s.nwalkers)).1 = .ok (c, l, p) := hres
  exact runLoop_shapes nsteps s.betas.length s.nwalkers s.ndim _ hseq 0
    _ c _ _ l p (shape4_zeros4 _ _ _ _) (shape3_zeros3 _ _ _)
    (shape3_zeros3 _ _ _) hres'

/-- C1 witness: the shape theorem instantiated on a concrete run. -/
theorem run_mcmc_output_shapes_witness :
    (1 ≤ 1 ∧
      wellShapedSeq (sOne.sample p0c 1) sOne.betas.length sOne.nwalkers
        sOne.ndim = true ∧
      (run_mcmc sOne p0c 1 1).result = .ok ([[[[1]]]], [[[2]]], [[[3]]])) ∧
    (shape4 [[[[1]]]] 1 sOne.betas.length sOne.nwalkers sOne.ndim = true ∧
     shape3 [[[2]]] 1 sOne.betas.length sOne.nwalkers = true ∧
     shape3 [[[3]]] 1 sOne.betas.length sOne.nwalkers = true) :=
  ⟨⟨by decide, by decide, by rfl⟩,
   run_mcmc_output_shapes sOne p0c 1 1 (by decide) (by decide)
     [[[[1]]]] [[[2]]] [[[3]]] (by rfl)⟩

/-- C2 counterexample: with `nsteps = 0` and a sampler able to produce a
result, `run_mcmc` still pulls one item from the sequence, so "at most
`nsteps` Step Results are pulled" fails for `nsteps = 0`. -/
theorem run_mcmc_pull_bound_counterexample :
    (run_mcmc sOne p0c 0 1).pulls = 1 ∧ ¬ (run_mcmc sOne p0c 0 1).pulls ≤ 0 := by
  decide

/-- C2 (amended to `nsteps ≥ 1`): the loop pulls at most `nsteps` items from
the sampler's sequence; once the step counter reaches `nsteps` the `break`
prevents any further pull. -/
theorem run_mcmc_pull_bound (s : Sampler) (p0 : A3) (nsteps thin : Nat)
    (hn : 1 ≤ nsteps) : (run_mcmc s p0 nsteps thin).pulls ≤ nsteps := by
  have h2 : (run_mcmc s p0 nsteps thin).pulls =
      (runLoop (s.sample p0 thin) 0 nsteps
        (zeros4 nsteps s.betas.length s.nwalkers s.ndim)
        (zeros3 nsteps s.betas.length s.nwalkers)
        (zeros3 nsteps s.betas.length s.nwalkers)).2 := rfl
  have h := runLoop_pulls_le nsteps (s.sample p0 thin) 0
    (zeros4 nsteps s.betas.length s.nwalkers s.ndim)
    (zeros3 nsteps s.betas.length s.nwalkers)
    (zeros3 nsteps s.betas.length s.nwalkers) hn
  omega

/-- C2 witness: a two-result sequence driven with `nsteps = 1` pulls at most
one item. -/
theorem run_mcmc_pull_bound_witness :
    1 ≤ 1 ∧ (run_mcmc sTwo p0c 1 1).pulls ≤ 1 :=
  ⟨by decide, run_mcmc_pull_bound sTwo p0c 1 1 (by decide)⟩

/-- C3 counterexample: with `nsteps = 0` and a sampler whose sequence can
produce a result, `run_mcmc` does not return zero-length arrays — it consumes
one item and faults with the out-of-bounds slot write
(`chain[0, :, :, :] = result.x` on a first axis of size 0). -/
theorem run_mcmc_zero_steps_counterexample :
    (run_mcmc sOne p0c 0 1).result = .error .indexError ∧
    (run_mcmc sOne p0c 0 1).pulls = 1 :=
  ⟨by rfl, by decide⟩

/-- C3 (amended): when `nsteps = 0` and the sampler's sequence produces at
least one result, `run_mcmc` consumes that first result and propagates an
`IndexError` from the slot write instead of returning empty arrays. -/
theorem run_mcmc_zero_steps_faults (s : Sampler) (p0 : A3) (thin : Nat)
    (r : StepResult) (rest : List (Except Fault StepResult))
    (hseq : s.sample p0 thin = .ok r :: rest) :
    (run_mcmc s p0 0 thin).result = .error .indexError ∧
    (run_mcmc s p0 0 thin).pulls = 1 := by
  have hbody := loopBody_indexError
    (c := zeros4 0 s.betas.length s.nwalkers s.ndim)
    (zeros3 0 s.betas.length s.nwalkers)
    (zeros3 0 s.betas.length s.nwalkers) (i := 0) r
    (by rw [length_zeros4]; omega)
  constructor
  · show (runLoop (s.sample p0 thin) 0 0
      (zeros4 0 s.betas.length s.nwalkers s.ndim)
      (zeros3 0 s.betas.length s.nwalkers)
      (zeros3 0 s.betas.length s.nwalkers)).1 = .error .indexError
    rw [hseq, runLoop_cons_ok_eq, hbody]
  · show (runLoop (s.sample p0 thin) 0 0
      (zeros4 0 s.betas.length s.nwalkers s.ndim)
      (zeros3 0 s.betas.length s.nwalkers)
      (zeros3 0 s.betas.length s.nwalkers)).2 = 1
    rw [hseq, runLoop_cons_ok_eq, hbody]

/-- C3 witness: the amended zero-step behavior on a concrete two-result
sampler. -/
theorem run_mcmc_zero_steps_faults_witness :
    sTwo.sample p0c 1 = .ok rA :: [.ok rB] ∧
    ((run_mcmc sTwo p0c 0 1).result = .error .indexError ∧
     (run_mcmc sTwo p0c 0 1).pulls = 1) :=
  ⟨rfl, run_mcmc_zero_steps_faults sTwo p0c 1 rA [.ok rB] rfl⟩

/-- C4: if the sampler's fault-free sequence terminates after
`k < nsteps` results, `run_mcmc` returns normally; the first `k` step slots
of each output array hold the produced results in order and every trailing
slot keeps its zero-initialized value. -/
theorem run_mcmc_short_sequence (s : Sampler) (p0 : A3) (nsteps thin : Nat)
    (hok : allOk (s.sample p0 thin) = true)
    (hk : (s.sample p0 thin).length < nsteps) :
    ∃ u v w, (run_mcmc s p0 nsteps thin).result = .ok (u, v, w) ∧
      (∀ i, i < (s.sample p0 thin).length →
        u[i]? = ((oks (s.sample p0 thin))[i]?).map StepResult.x ∧
        v[i]? = ((oks (s.sample p0 thin))[i]?).map StepResult.logl ∧
        w[i]? = ((oks (s.sample p0 thin))[i]?).map StepResult.logP) ∧
      (∀ i, (s.sample p0 thin).length ≤ i → i < nsteps →
        u[i]? = some (zeros3 s.betas.length s.nwalkers s.ndim) ∧
        v[i]? = some (zeros2 s.betas.length s.nwalkers) ∧
        w[i]? = some (zeros2 s.betas.length s.nwalkers)) := by
  have hn : 0 < nsteps := by omega
  have hlen : (oks (s.sample p0 thin)).length = (s.sample p0 thin).length :=
    length_oks_of_allOk _ hok
  have htake : (oks (s.sample p0 thin)).take nsteps = oks (s.sample p0 thin) :=
    List.take_of_length_le (by omega)
  rw [run_mcmc_all_ok s p0 nsteps thin hok hn]
  refine ⟨_, _, _, rfl, fun i hi => ?_, fun i hge hlt => ?_⟩
  · rw [htake]
    refine ⟨?_, ?_, ?_⟩ <;>
      rw [writeSeq_zero_getElem?_lt _ _ i (by simp [hlen, hi])
        (by simp [length_zeros4, length_zeros3]; omega), List.getElem?_map]
  · rw [htake]
    refine ⟨?_, ?_, ?_⟩
    · rw [writeSeq_zero_getElem?_ge _ _ i (by simp [hlen]; omega)]
      exact getElem?_zeros4 _ _ _ i hlt
    · rw [writeSeq_zero_getElem?_ge _ _ i (by simp [hlen]; omega)]
      exact getElem?_zeros3 _ _ i hlt
    · rw [writeSeq_zero_getElem?_ge _ _ i (by simp [hlen]; omega)]
      exact getElem?_zeros3 _ _ i hlt

/-- C4 witness: a one-result sequence collected with `nsteps = 2` leaves the
second slot zero-initialized. -/
theorem run_mcmc_short_sequence_witness :
    (allOk (sOne.sample p0c 1) = true ∧ (sOne.sample p0c 1).length < 2) ∧
    (∃ u v w, (run_mcmc sOne p0c 2 1).result = .ok (u, v, w) ∧
      (∀ i, i < (sOne.sample p0c 1).length →
        u[i]? = ((oks (sOne.sample p0c 1))[i]?).map StepResult.x ∧
        v[i]? = ((oks (sOne.sample p0c 1))[i]?).map StepResult.logl ∧
        w[i]? = ((oks (sOne.sample p0c 1))[i]?).map StepResult.logP) ∧
      (∀ i, (sOne.sample p0c 1).length ≤ i → i < 2 →
        u[i]? = some (zeros3 sOne.betas.length sOne.nwalkers sOne.ndim) ∧
        v[i]? = some (zeros2 sOne.betas.length sOne.nwalkers) ∧
        w[i]? = some (zeros2 sOne.betas.length sOne.nwalkers))) :=
  ⟨⟨by decide, by decide⟩,
   run_mcmc_short_sequence sOne p0c 2 1 (by decide) (by decide)⟩

/-- C5: a fault raised by the sampler's sequence while producing a step
result that the loop actually pulls (the fault-free prefix is shorter than
`nsteps`) propagates unchanged to the caller: the run's outcome is that very
fault, no retry happens (exactly the prefix plus the faulting pull is
consumed), and no partial value is returned. -/
theorem run_mcmc_fault_propagates (s : Sampler) (p0 : A3) (nsteps thin : Nat)
    (pre : List (Except Fault StepResult)) (f : Fault)
    (rest : List (Except Fault StepResult))
    (hseq : s.sample p0 thin = pre ++ .error f :: rest)
    (hok : allOk pre = true) (hlen : pre.length < nsteps) :
    (run_mcmc s p0 nsteps thin).result = .error f ∧
    (run_mcmc s p0 nsteps thin).pulls = pre.length + 1 := by
  have h := runLoop_fault nsteps f rest pre hok 0
    (zeros4 nsteps s.betas.length s.nwalkers s.ndim)
    (zeros3 nsteps s.betas.length s.nwalkers)
    (zeros3 nsteps s.betas.length s.nwalkers)
    (by omega) (length_zeros4 _ _ _ _) (length_zeros3 _ _ _)
    (length_zeros3 _ _ _)
  constructor
  · show (runLoop (s.sample p0 thin) 0 nsteps
      (zeros4 nsteps s.betas.length s.nwalkers s.ndim)
      (zeros3 nsteps s.betas.length s.nwalkers)
      (zeros3 nsteps s.betas.length s.nwalkers)).1 = .error f
    rw [hseq, h]
  · show (runLoop (s.sample p0 thin) 0 nsteps
      (zeros4 nsteps s.betas.length s.nwalkers s.ndim)
      (zeros3 nsteps s.betas.length s.nwalkers)
      (zeros3 nsteps s.betas.length s.nwalkers)).2 = pre.length + 1
    rw [hseq, h]

/-- C5 witness: a sequence that faults on its first pull makes the whole run
fail with that same fault. -/
theorem run_mcmc_fault_propagates_witness :
    (sFault.sample p0c 1 = [] ++ .error (.external 3) :: [] ∧
     allOk ([] : List (Except Fault StepResult)) = true ∧
     ([] : List (Except Fault StepResult)).length < 2) ∧
    ((run_mcmc sFault p0c 2 1).result = .error (.external 3) ∧
     (run_mcmc sFault p0c 2 1).pulls =
       ([] : List (Except Fault StepResult)).length + 1) :=
  ⟨⟨rfl, by decide, by decide⟩,
   run_mcmc_fault_propagates sFault p0c 2 1 [] (.external 3) [] rfl
     (by decide) (by decide)⟩

/-- C6 counterexample: a malformed input — the non-positive thinning interval
`thin = 0` — does not make `run_mcmc` fail fast with an invalid-argument
fault: the allocation and the loop proceed and the call completes normally. -/
theorem run_mcmc_no_validation_counterexample :
    (run_mcmc sEmpty p0c 1 0).result =
      .ok (zeros4 1 1 1 1, zeros3 1 1 1, zeros3 1 1 1) ∧
    (run_mcmc sEmpty p0c 1 0).pulls = 0 :=
  ⟨by rfl, by decide⟩

/-- C6 (amended): `run_mcmc` performs no input validation at all — a
non-positive thinning interval and an initial position of arbitrary shape
are forwarded unchecked to the sampler, and the run completes normally
whenever the resulting sequence is fault-free. -/
theorem run_mcmc_no_input_validation (s : Sampler) (p0 : A3) (nsteps : Nat)
    (hok : allOk (s.sample p0 0) = true) (hn : 0 < nsteps) :
    (run_mcmc s p0 nsteps 0).result.isOk = true := by
  rw [run_mcmc_all_ok s p0 nsteps 0 hok hn]
  rfl

/-- C6 witness: the amended no-validation theorem on a concrete call with
`thin = 0`. -/
theorem run_mcmc_no_input_validation_witness :
    (allOk (sEmpty.sample p0c 0) = true ∧ 0 < 1) ∧
    (run_mcmc sEmpty p0c 1 0).result.isOk = true :=
  ⟨⟨by decide, by decide⟩,
   run_mcmc_no_input_validation sEmpty p0c 1 (by decide) (by decide)⟩

/-- C7: on a fault-free sequence, the step axis of the returned arrays
matches the yield order exactly: for every `i` below both the sequence length
and `nsteps`, the `i`-th produced result's `x`, `logl` and `logP` sit at step
index `i` of the chain, log-likelihood and log-prior arrays. -/
theorem run_mcmc_preserves_yield_order (s : Sampler) (p0 : A3)
    (nsteps thin i : Nat)
    (hok : allOk (s.sample p0 thin) = true)
    (hi : i < nsteps) (hil : i < (s.sample p0 thin).length) :
    ∃ u v w, (run_mcmc s p0 nsteps thin).result = .ok (u, v, w) ∧
      u[i]? = ((oks (s.sample p0 thin))[i]?).map StepResult.x ∧
      v[i]? = ((oks (s.sample p0 thin))[i]?).map StepResult.logl ∧
      w[i]? = ((oks (s.sample p0 thin))[i]?).map StepResult.logP := by
  have hn : 0 < nsteps := by omega
  have hlen : (oks (s.sample p0 thin)).length = (s.sample p0 thin).length :=
    length_oks_of_allOk _ hok
  have htk : ∀ j, j < (s.sample p0 thin).length → j < nsteps →
      ((oks (s.sample p0 thin)).take nsteps)[j]? = (oks (s.sample p0 thin))[j]? :=
    fun j _ hj2 => List.getElem?_take_of_lt hj2
  rw [run_mcmc_all_ok s p0 nsteps thin hok hn]
  refine ⟨_, _, _, rfl, ?_, ?_, ?_⟩ <;>
    rw [writeSeq_zero_getElem?_lt _ _ i
        (by simp [List.length_take]; omega)
        (by simp [length_zeros4, length_zeros3]; omega),
      List.getElem?_map, htk i hil hi]

/-- C7 witness: on the two-result sampler with `nsteps = 2`, step slot 1
holds the second yielded result. -/
theorem run_mcmc_preserves_yield_order_witness :
    (allOk (sTwo.sample p0c 1) = true ∧ 1 < 2 ∧
     1 < (sTwo.sample p0c 1).length) ∧
    (∃ u v w, (run_mcmc sTwo p0c 2 1).result = .ok (u, v, w) ∧
      u[1]? = ((oks (sTwo.sample p0c 1))[1]?).map StepResult.x ∧
      v[1]? = ((oks (sTwo.sample p0c 1))[1]?).map StepResult.logl ∧
      w[1]? = ((oks (sTwo.sample p0c 1))[1]?).map StepResult.logP) :=
  ⟨⟨by decide, by decide, by decide⟩,
   run_mcmc_preserves_yield_order sTwo p0c 2 1 1 (by decide) (by decide)
     (by decide)⟩

/-- C8 counterexample: when the sampler's sequence faults, the propagated
fault skips `pbar.close()` (there is no try/finally in the source), so the
progress-display resource is NOT released on the fault exit path. -/
theorem run_mcmc_pbar_counterexample :
    (run_mcmc sFault p0c 2 1).result = .error (.external 3) ∧
    (run_mcmc sFault p0c 2 1).pbarClosed = false :=
  ⟨by rfl, by decide⟩

/-- C8 (amended): the progress display opened before the loop is closed on
every normal exit path (completion, `break` at `nsteps`, sequence
exhaustion), but it is NOT closed when a fault propagates: `pbar.close()` is
reached exactly when no fault escapes the loop. -/
theorem run_mcmc_pbar_closed_iff_no_fault (s : Sampler) (p0 : A3)
    (nsteps thin : Nat) :
    (run_mcmc s p0 nsteps thin).pbarClosed = true ↔
      ∀ f, (run_mcmc s p0 nsteps thin).result ≠ .error f := by
  have hr : (run_mcmc s p0 nsteps thin).pbarClosed =
      (run_mcmc s p0 nsteps thin).result.isOk := rfl
  rw [hr]
  cases hres : (run_mcmc s p0 nsteps thin).result with
  | ok v =>
    simp only [Except.isOk, Except.toBool]
    constructor
    · intro _ f h
      cases h
    · intro _
      trivial
  | error f =>
    simp only [Except.isOk, Except.toBool]
    constructor
    · intro h
      simp at h
    · intro h
      exact absurd rfl (h f)

/-- C9: `run_mcmc` consumes the sampler's sequence-producing operation only
at the exact arguments `(p0, thin)` it was given — the initial position and
the thinning interval are passed through unchanged — so two samplers with the
same read attributes whose `sample` agree at `(p0, thin)` produce identical
runs. -/
theorem run_mcmc_passes_args_through (s₁ s₂ : Sampler) (p0 : A3)
    (nsteps thin : Nat)
    (hb : s₁.betas = s₂.betas) (hw : s₁.nwalkers = s₂.nwalkers)
    (hd : s₁.ndim = s₂.ndim)
    (hs : s₁.sample p0 thin = s₂.sample p0 thin) :
    run_mcmc s₁ p0 nsteps thin = run_mcmc s₂ p0 nsteps thin := by
  simp only [run_mcmc, hb, hw, hd, hs]

/-- C9 witness: a sampler that records its thinning argument (faulting unless
it receives exactly 3) behaves identically to the plain one-result sampler
when driven through `run_mcmc` with `thin = 3`, showing `thin` and `p0`
arrive unchanged. -/
theorem run_mcmc_passes_args_through_witness :
    (sOne.betas = sRecThin.betas ∧ sOne.nwalkers = sRecThin.nwalkers ∧
     sOne.ndim = sRecThin.ndim ∧ sOne.sample p0c 3 = sRecThin.sample p0c 3) ∧
    run_mcmc sOne p0c 2 3 = run_mcmc sRecThin p0c 2 3 :=
  ⟨⟨rfl, rfl, rfl, by rfl⟩,
   run_mcmc_passes_args_through sOne sRecThin p0c 2 3 rfl rfl rfl (by rfl)⟩

/-- C10: the temperature-axis size of the returned arrays is
`np.size(sampler.betas)` — the length of the `betas` attribute — and not the
sampler's declared `ntemps` attribute: changing the declared attribute leaves
the run unchanged, and each returned step slot has first-axis length
`sampler.betas.length`. -/
theorem run_mcmc_ntemps_from_betas (s : Sampler) (p0 : A3)
    (nsteps thin m : Nat)
    (hseq : wellShapedSeq (s.sample p0 thin) s.betas.length s.nwalkers
      s.ndim = true) :
    run_mcmc { s with ntempsAttr := m } p0 nsteps thin =
      run_mcmc s p0 nsteps thin ∧
    ∀ u v w, (run_mcmc s p0 nsteps thin).result = .ok (u, v, w) →
      u.length = nsteps ∧
      (∀ slot ∈ u, slot.length = s.betas.length) ∧
      (∀ slot ∈ v, slot.length = s.betas.length) ∧
      (∀ slot ∈ w, slot.length = s.betas.length) := by
  constructor
  · rfl
  · intro u v w hres
    have hres' : (runLoop (s.sample p0 thin) 0 nsteps
        (zeros4 nsteps s.betas.length s.nwalkers s.ndim)
        (zeros3 nsteps s.betas.length s.nwalkers)
        (zeros3 nsteps s.betas.length s.nwalkers)).1 = .ok (u, v, w) := hres
    have hsh := runLoop_shapes nsteps s.betas.length s.nwalkers s.ndim _
      hseq 0 _ u _ _ v w (shape4_zeros4 _ _ _ _) (shape3_zeros3 _ _ _)
      (shape3_zeros3 _ _ _) hres'
    exact ⟨shape4_length hsh.1,
      fun slot hs => shape3_length (shape4_mem hsh.1 hs),
      fun slot hs => by
        have h := hsh.2.1
        simp only [shape3, Bool.and_eq_true, beq_iff_eq, List.all_eq_true] at h
        exact shape2_length (h.2 slot hs),
      fun slot hs => by
        have h := hsh.2.2
        simp only [shape3, Bool.and_eq_true, beq_iff_eq, List.all_eq_true] at h
        exact shape2_length (h.2 slot hs)⟩

/-- C10 witness: the `ntemps`-from-`betas` theorem on a concrete run with a
deliberately wrong declared `ntemps` attribute (99). -/
theorem run_mcmc_ntemps_from_betas_witness :
    wellShapedSeq (sOne.sample p0c 1) sOne.betas.length sOne.nwalkers
      sOne.ndim = true ∧
    run_mcmc { sOne with ntempsAttr := 99 } p0c 1 1 = run_mcmc sOne p0c 1 1 ∧
    ([[[[1]]]] : A4).length = 1 ∧
    (∀ slot ∈ ([[[[1]]]] : A4), slot.length = sOne.betas.length) := by
  have h := run_mcmc_ntemps_from_betas sOne p0c 1 1 99 (by decide)
  have h2 := h.2 [[[[1]]]] [[[2]]] [[[3]]] (by rfl)
  exact ⟨by decide, h.1, h2.1, h2.2.1⟩
